import Mathlib

/-!
# Verification of the ASRS spaced-repetition scheduling engine

A shallow embedding of the scheduling and review-scoring core of the ASRS
repository (`classes.py`, class `SpacedRepetitionSystem`), together with
theorems settling the specification's claims about it.

Modelling conventions:
* Dates and datetimes are modelled at day granularity as integers
  (days since an arbitrary epoch); ISO-8601 date strings compare
  lexicographically exactly as the underlying dates do, so `next_review`
  string comparisons in the code become integer comparisons here.
* Python floats are modelled as exact rationals where the code only performs
  field operations, and as real numbers where `math.pow(2, level)` with a
  fractional `level` appears.  Python `int(x)` truncation toward zero is
  modelled by `pyInt`.
* The JSON-backed store `self.data` becomes the `Store` structure; the
  `topics` dict becomes an association list in insertion order (Python dicts
  preserve insertion order, and in-place updates keep the position of a key).
* The derived index `self.subjects` (subject name → set of topic names) is
  always rebuilt from the `subject` field of the topic records, so filtering
  through it is modelled as filtering on the `subject` field directly.
* Fallible operations that in Python log a warning and return without
  mutating return a `Bool` success flag alongside the resulting store.
-/

namespace ASRS

/-- A topic record, as stored under `data["topics"][name]` in `classes.py`:
`level`, `next_review`, `difficulty`, `reviews`, `subject`, `review_dates`. -/
structure Topic where
  level : ℚ
  next_review : ℤ
  difficulty : ℚ
  reviews : ℤ
  subject : String
  review_dates : List ℤ
deriving DecidableEq

/-- The streak record `data["streak"]` with its two independent tracks. -/
structure Streak where
  current : ℤ
  longest : ℤ
  last_review : Option ℤ
  last_homework : Option ℤ
deriving DecidableEq

/-- The parts of the JSON document `self.data` that the scheduling core
reads or mutates. -/
structure Store where
  topics : List (String × Topic)
  total_reviews : ℤ
  streak : Streak
deriving DecidableEq

/-- Dictionary lookup `self.data["topics"].get(topic)`. -/
def findTopic (st : Store) (t : String) : Option Topic :=
  (st.topics.find? (fun p => p.1 == t)).map Prod.snd

/-- Dictionary write `self.data["topics"][topic] = td` for a key already
present: the entry keeps its position and its value is replaced. -/
def setTopic (st : Store) (t : String) (td : Topic) : Store :=
  { st with topics := st.topics.map (fun p => if p.1 = t then (t, td) else p) }

/-- `add_topic` (classes.py lines 145-164): empty names are rejected, an
existing topic is left untouched, a new topic starts at level 0 with
`next_review = today`, difficulty 3 and no reviews. -/
def add_topic (st : Store) (topic subject : String) (today : ℤ) : Store :=
  if topic = "" ∨ subject = "" then st
  else if findTopic st topic = none then
    { st with topics := st.topics ++
        [(topic, { level := 0, next_review := today, difficulty := 3,
                   reviews := 0, subject := subject, review_dates := [] })] }
  else st

/-- `update_streak` (classes.py lines 460-480).  `homework` selects the
track of the qualifying event; `today` is `date.today()`. -/
def update_streak (s : Streak) (homework : Bool) (today : ℤ) : Streak :=
  let yesterday := today - 1
  let s1 :=
    if s.last_review = some yesterday ∨
        (homework = true ∧ s.last_homework = some yesterday) then
      { s with current := s.current + 1,
               longest := max (s.current + 1) s.longest }
    else if s.last_review ≠ some today ∧
        (homework = false ∨ s.last_homework ≠ some today) then
      { s with current := 1 }
    else s
  if homework then { s1 with last_homework := some today }
  else { s1 with last_review := some today }

/-- `_apply_spaced_repetition_curve` (classes.py lines 242-248): the tiered
cap on the computed interval. -/
def apply_spaced_repetition_curve (interval num_reviews : ℤ) : ℤ :=
  if num_reviews ≤ 3 then min interval 7
  else if num_reviews ≤ 7 then min interval 14
  else min interval 60

/-- `_update_topic_difficulty` (classes.py lines 250-256): exponential
smoothing of the stored difficulty toward the new rating, learning rate 0.2. -/
def update_topic_difficulty (current_difficulty : ℚ) (new_difficulty : ℤ) : ℚ :=
  current_difficulty + (1 / 5) * ((new_difficulty : ℚ) - current_difficulty)

/-- `early_review_factor` (classes.py lines 181-183):
`max(0, 1 - days_since_last_review / 7)`. -/
def early_review_factor (days_since_last_review : ℤ) : ℚ :=
  max 0 (1 - (days_since_last_review : ℚ) / 7)

/-- `review_score` (classes.py lines 192-194): `((6 - difficulty) + confidence) / 2`. -/
def review_score (difficulty confidence : ℤ) : ℚ :=
  ((6 - (difficulty : ℚ)) + (confidence : ℚ)) / 2

/-- `difficulty_factor = (6 - difficulty) / 3` (classes.py line 201). -/
def difficulty_factor (difficulty : ℤ) : ℚ := (6 - (difficulty : ℚ)) / 3

/-- `confidence_factor = confidence / 3` (classes.py line 202). -/
def confidence_factor (confidence : ℤ) : ℚ := (confidence : ℚ) / 3

/-- `early_review_bonus = 1 + early_review_factor` (classes.py line 203). -/
def early_review_bonus (days_since_last_review : ℤ) : ℚ :=
  1 + early_review_factor days_since_last_review

/-- `base_interval = math.pow(2, topic_data["level"])` (classes.py line 200),
with the (already incremented) level a rational and the power a real. -/
noncomputable def base_interval (level : ℚ) : ℝ := (2 : ℝ) ^ ((level : ℝ))

/-- Python `int(x)` for a float `x`: truncation toward zero. -/
noncomputable def pyInt (x : ℝ) : ℤ := if 0 ≤ x then ⌊x⌋ else ⌈x⌉

/-- `next_interval` (classes.py lines 205-207): the raw interval before the
tiered cap, truncated to an integer. -/
noncomputable def next_interval (level : ℚ) (difficulty confidence : ℤ)
    (days_since_last_review : ℤ) : ℤ :=
  pyInt (base_interval level * ((difficulty_factor difficulty : ℚ) : ℝ) *
    ((confidence_factor confidence : ℚ) : ℝ) *
    ((early_review_bonus days_since_last_review : ℚ) : ℝ))

/-- The mutation `review_topic` performs on the topic record it found
(classes.py lines 175-219): level grows by `review_score / 5`, the review
count and review-date log grow, `next_review` becomes `now` plus the capped
interval, and the stored difficulty is smoothed toward the new rating. -/
noncomputable def do_review (td : Topic) (difficulty confidence : ℤ) (now : ℤ) : Topic :=
  let days_since_last_review : ℤ := now - td.next_review
  let level' : ℚ := td.level + review_score difficulty confidence / 5
  let reviews' : ℤ := td.reviews + 1
  let spaced_interval : ℤ :=
    apply_spaced_repetition_curve
      (next_interval level' difficulty confidence days_since_last_review) reviews'
  { level := level',
    next_review := now + spaced_interval,
    difficulty := update_topic_difficulty td.difficulty difficulty,
    reviews := reviews',
    subject := td.subject,
    review_dates := td.review_dates ++ [now] }

/-- `review_topic` (classes.py lines 166-225): empty or unknown topic names
produce a warning and no mutation (flag `false`); otherwise the found record
is rewritten by `do_review`, `total_reviews` is incremented and the review
streak updated (flag `true`). -/
noncomputable def review_topic (st : Store) (topic : String)
    (difficulty confidence : ℤ) (now : ℤ) : Store × Bool :=
  if topic = "" then (st, false)
  else
    match findTopic st topic with
    | none => (st, false)
    | some td =>
      let st' := setTopic st topic (do_review td difficulty confidence now)
      ({ st' with total_reviews := st'.total_reviews + 1,
                  streak := update_streak st'.streak false now }, true)

/-- The due-ness test of `get_topics_to_review` (classes.py lines 260-271):
`next_review <= today`, optionally restricted to one subject (the derived
`self.subjects` index is rebuilt from the `subject` fields, so membership in
`self.subjects[s]` is membership of the record's `subject` field in `s`). -/
def isDue (today : ℤ) (subject : Option String) (p : String × Topic) : Bool :=
  (match subject with
   | some s => p.2.subject == s
   | none => true) && decide (p.2.next_review ≤ today)

/-- The sort key of `get_topics_to_review` (classes.py lines 273-275):
ascending `next_review`. -/
def byNextReview (a b : String × Topic) : Prop :=
  a.2.next_review ≤ b.2.next_review

instance : DecidableRel byNextReview :=
  fun a b => Int.decLe a.2.next_review b.2.next_review

instance : IsTotal (String × Topic) byNextReview := ⟨fun _ _ => le_total _ _⟩

instance : IsTrans (String × Topic) byNextReview := ⟨fun _ _ _ => Int.le_trans⟩

/-- `sorted_topics` (classes.py lines 273-275): the due topics sorted by
`next_review` with a stable sort (Python's `sorted` is stable; a stable
sort's output is determined by the input order, so insertion sort produces
the same list). -/
def dueSorted (st : Store) (subject : Option String) (today : ℤ) :
    List (String × Topic) :=
  List.insertionSort byNextReview (st.topics.filter (isDue today subject))

/-- `get_topics_to_review` (classes.py lines 258-289): returns the due
topics (names only, sorted); when more than `cap` (`MAX_TOPICS_PER_DAY`) are
due, only the first `cap` are returned and every remaining due topic has its
`next_review` rewritten to `today + 1`. -/
def get_topics_to_review (st : Store) (subject : Option String) (today : ℤ)
    (cap : ℕ) : List String × Store :=
  let sorted_topics := (dueSorted st subject today).map Prod.fst
  if cap < sorted_topics.length then
    let topics_for_today := sorted_topics.take cap
    let topics_for_tomorrow := sorted_topics.drop cap
    (topics_for_today,
     { st with topics := st.topics.map (fun p =>
         if p.1 ∈ topics_for_tomorrow then
           (p.1, { p.2 with next_review := today + 1 })
         else p) })
  else (sorted_topics, st)

/-! ## Basic lemmas about the store operations -/

theorem find?_map_keyfix (l : List (String × Topic)) (t : String)
    (f : String × Topic → String × Topic) (hf : ∀ p, (f p).1 = p.1) :
    (l.map f).find? (fun p => p.1 == t) = (l.find? (fun p => p.1 == t)).map f := by
  induction l with
  | nil => rfl
  | cons a l ih =>
    simp only [List.map_cons, List.find?_cons, hf a]
    cases h : (a.1 == t) <;> simp [h, ih]

theorem findTopic_setTopic_self (st : Store) (t : String) (td' : Topic)
    (h : findTopic st t ≠ none) :
    findTopic (setTopic st t td') t = some td' := by
  unfold findTopic setTopic at *
  rw [find?_map_keyfix st.topics t _ (fun p => by by_cases hp : p.1 = t <;> simp [hp])]
  cases hfind : st.topics.find? (fun p => p.1 == t) with
  | none => rw [hfind] at h; simp at h
  | some p =>
    have hp : p.1 = t := by simpa using List.find?_some hfind
    simp [hp]

theorem review_topic_found (st : Store) (t : String) (td : Topic) (d c now : ℤ)
    (ht : t ≠ "") (h : findTopic st t = some td) :
    review_topic st t d c now =
      ({ setTopic st t (do_review td d c now) with
         total_reviews := st.total_reviews + 1,
         streak := update_streak st.streak false now }, true) := by
  unfold review_topic
  rw [if_neg ht, h]
  rfl

theorem findTopic_review_topic (st : Store) (t : String) (td : Topic)
    (d c now : ℤ) (ht : t ≠ "") (h : findTopic st t = some td) :
    findTopic (review_topic st t d c now).1 t = some (do_review td d c now) := by
  rw [review_topic_found st t td d c now ht h]
  exact findTopic_setTopic_self st t _ (by rw [h]; exact Option.some_ne_none td)

theorem do_review_reviews (td : Topic) (d c now : ℤ) :
    (do_review td d c now).reviews = td.reviews + 1 := rfl

theorem do_review_level (td : Topic) (d c now : ℤ) :
    (do_review td d c now).level = td.level + review_score d c / 5 := rfl

theorem do_review_next_review (td : Topic) (d c now : ℤ) :
    (do_review td d c now).next_review =
      now + apply_spaced_repetition_curve
        (next_interval (td.level + review_score d c / 5) d c (now - td.next_review))
        (td.reviews + 1) := rfl

theorem curve_le_seven (i n : ℤ) (h : n ≤ 3) :
    apply_spaced_repetition_curve i n ≤ 7 := by
  unfold apply_spaced_repetition_curve
  rw [if_pos h]
  exact min_le_right i 7

theorem curve_le_fourteen (i n : ℤ) (h : n ≤ 7) :
    apply_spaced_repetition_curve i n ≤ 14 := by
  unfold apply_spaced_repetition_curve
  by_cases h3 : n ≤ 3
  · rw [if_pos h3]; exact le_trans (min_le_right i 7) (by norm_num)
  · rw [if_neg h3, if_pos h]; exact min_le_right i 14

theorem curve_le_sixty (i n : ℤ) : apply_spaced_repetition_curve i n ≤ 60 := by
  unfold apply_spaced_repetition_curve
  by_cases h3 : n ≤ 3
  · rw [if_pos h3]; exact le_trans (min_le_right i 7) (by norm_num)
  by_cases h7 : n ≤ 7
  · rw [if_neg h3, if_pos h7]; exact le_trans (min_le_right i 14) (by norm_num)
  · rw [if_neg h3, if_neg h7]; exact min_le_right i 60

/-! ## Sample data used to instantiate theorems with hypotheses -/

/-- A fresh topic record exactly as `add_topic` creates it on day 0. -/
def tdA : Topic :=
  { level := 0, next_review := 0, difficulty := 3, reviews := 0,
    subject := "math", review_dates := [] }

/-- The streak record of a fresh data file whose last review was yesterday
relative to day 0. -/
def streakA : Streak :=
  { current := 1, longest := 1, last_review := some (-1), last_homework := none }

/-- A one-topic store. -/
def sampleStore : Store :=
  { topics := [("algebra", tdA)], total_reviews := 0, streak := streakA }

/-- A store with no topics yet. -/
def emptyStore : Store :=
  { topics := [], total_reviews := 0, streak := streakA }

/-! ## The first-review scenario

In `review_topic` the level is incremented *before* `base_interval` is
computed, so a first review with both ratings 3 uses
`base_interval = 2 ^ 0.6` and the raw interval is
`int(2 ^ 0.6 * 1 * 1 * 2) = int(3.031...) = 3`. -/

theorem floor_two_rpow_key : ⌊(2 : ℝ) ^ ((3 : ℝ) / 5) * 2⌋ = 3 := by
  have h0 : (0 : ℝ) ≤ 2 := by norm_num
  have hub : (2 : ℝ) ^ ((3 : ℝ) / 5) < 2 := by
    have := (Real.rpow_lt_rpow_left_iff (x := 2) (y := (3 : ℝ) / 5) (z := 1)
      (by norm_num)).mpr (by norm_num)
    simpa [Real.rpow_one] using this
  have hpow : ((2 : ℝ) ^ ((3 : ℝ) / 5)) ^ (5 : ℕ) = 8 := by
    rw [← Real.rpow_natCast ((2 : ℝ) ^ ((3 : ℝ) / 5)) 5, ← Real.rpow_mul h0]
    norm_num
  have hlb : (3 : ℝ) / 2 ≤ (2 : ℝ) ^ ((3 : ℝ) / 5) := by
    refine le_of_pow_le_pow_left₀ (n := 5) (by norm_num) (by positivity) ?_
    rw [hpow]; norm_num
  rw [Int.floor_eq_iff]
  constructor
  · push_cast; nlinarith
  · push_cast; nlinarith

theorem scenario_product :
    base_interval (0 + review_score 3 3 / 5) * ((difficulty_factor 3 : ℚ) : ℝ) *
      ((confidence_factor 3 : ℚ) : ℝ) * ((early_review_bonus 0 : ℚ) : ℝ)
      = (2 : ℝ) ^ ((3 : ℝ) / 5) * 2 := by
  have h1 : (difficulty_factor 3 : ℚ) = 1 := by norm_num [difficulty_factor]
  have h2 : (confidence_factor 3 : ℚ) = 1 := by norm_num [confidence_factor]
  have h3 : (early_review_bonus 0 : ℚ) = 2 := by
    norm_num [early_review_bonus, early_review_factor]
  have h4 : (0 : ℚ) + review_score 3 3 / 5 = 3 / 5 := by norm_num [review_score]
  rw [h1, h2, h3, h4]
  unfold base_interval
  norm_num

theorem scenario_next_interval :
    next_interval (0 + review_score 3 3 / 5) 3 3 0 = 3 := by
  unfold next_interval pyInt
  rw [scenario_product, if_pos (by positivity)]
  exact floor_two_rpow_key

theorem review_on_schedule (st : Store) (t : String) (td : Topic) (now : ℤ)
    (ht : t ≠ "") (h : findTopic st t = some td)
    (hlevel : td.level = 0) (hreviews : td.reviews = 0)
    (hsched : td.next_review = now) :
    ∃ td', findTopic (review_topic st t 3 3 now).1 t = some td' ∧
      td'.next_review = now + 3 := by
  refine ⟨do_review td 3 3 now, findTopic_review_topic st t td 3 3 now ht h, ?_⟩
  rw [do_review_next_review, hlevel, hreviews, hsched, sub_self,
    scenario_next_interval]
  norm_num [apply_spaced_repetition_curve, min_def]

/-! ## Claims -/

/-- Claim C1, counterexample to the claim as stated: for the scenario topic
(level 0, reviews 0, reviewed on its scheduled day with ratings 3/3) the
code sets `next_review` to `today + 3`, not `today + 2`: the level is
incremented to 0.6 *before* `base_interval = 2 ^ level` is read, so the raw
interval is `int(2 ^ 0.6 * 1 * 1 * 2) = 3`, not 2. -/
theorem C1_counterexample :
    ∃ td', findTopic (review_topic sampleStore "algebra" 3 3 0).1 "algebra" = some td' ∧
      td'.next_review = 0 + 3 ∧ ¬ td'.next_review = 0 + 2 := by
  obtain ⟨td', hf, hn⟩ := review_on_schedule sampleStore "algebra" tdA 0
    (by decide) (by decide) rfl rfl rfl
  exact ⟨td', hf, hn, by rw [hn]; norm_num⟩

/-- Claim C1 (amended): for a topic with level 0 and no reviews, reviewed
exactly on its scheduled day with operator ratings difficulty 3 and
confidence 3, the review sets `next_review` to today + 3: the level is
incremented to 0.6 first, so `base_interval = 2^0.6`, the factors are
`difficulty_factor = 1`, `confidence_factor = 1`, `early_review_bonus = 2`,
the raw interval is `int(2^0.6 · 2) = 3`, and the tier cap 7 (review count
1) leaves it at 3. -/
theorem C1_first_review_scenario (st : Store) (t : String) (td : Topic)
    (now : ℤ) (ht : t ≠ "") (h : findTopic st t = some td)
    (hlevel : td.level = 0) (hreviews : td.reviews = 0)
    (hsched : td.next_review = now) :
    ∃ td', findTopic (review_topic st t 3 3 now).1 t = some td' ∧
      td'.next_review = now + 3 :=
  review_on_schedule st t td now ht h hlevel hreviews hsched

/-- Claim C1, witness: the amended scenario run on a concrete fresh topic. -/
theorem C1_witness :
    ∃ td', findTopic (review_topic sampleStore "algebra" 3 3 0).1 "algebra" = some td' ∧
      td'.next_review = 0 + 3 :=
  C1_first_review_scenario sampleStore "algebra" tdA 0 (by decide) (by decide)
    rfl rfl rfl

/-- Claim C2, counterexample to the claim as stated: a review 7 days before
the scheduled date (`days_since_last_review = -7`) gets an early-review
bonus of `1 + max(0, 1 - (-7)/7) = 3`, which exceeds the claimed upper
bound 2. -/
theorem C2_counterexample :
    early_review_bonus (-7) = 3 ∧ ¬ early_review_bonus (-7) ≤ 2 := by
  norm_num [early_review_bonus, early_review_factor]

/-- Claim C2 (amended): the early-review bonus `1 + max(0, 1 - days/7)` is
always at least 1, and it is at most 2 whenever the review does not happen
before the stored `next_review` date (`days_since_last_review ≥ 0`). -/
theorem C2_early_review_bonus_bounds (d : ℤ) :
    1 ≤ early_review_bonus d ∧ (0 ≤ d → early_review_bonus d ≤ 2) := by
  constructor
  · have h : (0 : ℚ) ≤ early_review_factor d := le_max_left 0 _
    unfold early_review_bonus
    linarith
  · intro hd
    have hd' : (0 : ℚ) ≤ (d : ℚ) := by exact_mod_cast hd
    unfold early_review_bonus early_review_factor
    have h : max (0 : ℚ) (1 - (d : ℚ) / 7) ≤ 1 :=
      max_le (by norm_num) (by linarith)
    linarith

/-- Claim C2, witness for the amended bounds at `days_since_last_review = 3`. -/
theorem C2_witness :
    1 ≤ early_review_bonus 3 ∧ early_review_bonus 3 ≤ 2 :=
  ⟨(C2_early_review_bonus_bounds 3).1,
   (C2_early_review_bonus_bounds 3).2 (by norm_num)⟩

/-- Claim C3: a review rewrites the found record with `reviews` incremented
by one, and the applied interval is capped by the tier of the post-increment
review count: `next_review` is at most `now + 7` when the new count is at
most 3, at most `now + 14` when it is at most 7, and at most `now + 60`
always. -/
theorem C3_tiered_cap (st : Store) (t : String) (td : Topic) (d c now : ℤ)
    (ht : t ≠ "") (h : findTopic st t = some td) :
    ∃ td', findTopic (review_topic st t d c now).1 t = some td' ∧
      td'.reviews = td.reviews + 1 ∧
      (td'.reviews ≤ 3 → td'.next_review ≤ now + 7) ∧
      (td'.reviews ≤ 7 → td'.next_review ≤ now + 14) ∧
      td'.next_review ≤ now + 60 := by
  refine ⟨do_review td d c now, findTopic_review_topic st t td d c now ht h,
    do_review_reviews td d c now, ?_, ?_, ?_⟩
  · intro hr
    rw [do_review_reviews] at hr
    rw [do_review_next_review]
    have := curve_le_seven
      (next_interval (td.level + review_score d c / 5) d c (now - td.next_review))
      (td.reviews + 1) hr
    linarith
  · intro hr
    rw [do_review_reviews] at hr
    rw [do_review_next_review]
    have := curve_le_fourteen
      (next_interval (td.level + review_score d c / 5) d c (now - td.next_review))
      (td.reviews + 1) hr
    linarith
  · rw [do_review_next_review]
    have := curve_le_sixty
      (next_interval (td.level + review_score d c / 5) d c (now - td.next_review))
      (td.reviews + 1)
    linarith

/-- Claim C3, witness: the tier bounds instantiated on a concrete review of
a fresh topic. -/
theorem C3_witness :
    ∃ td', findTopic (review_topic sampleStore "algebra" 3 3 0).1 "algebra" = some td' ∧
      td'.reviews = tdA.reviews + 1 ∧
      (td'.reviews ≤ 3 → td'.next_review ≤ 0 + 7) ∧
      (td'.reviews ≤ 7 → td'.next_review ≤ 0 + 14) ∧
      td'.next_review ≤ 0 + 60 :=
  C3_tiered_cap sampleStore "algebra" tdA 3 3 0 (by decide) (by decide)

theorem find?_reschedule (l : List (String × Topic)) (ns : List String)
    (v : ℤ) (n : String) :
    (l.map (fun p => if p.1 ∈ ns then (p.1, { p.2 with next_review := v }) else p)).find?
        (fun p => p.1 == n)
      = (l.find? (fun p => p.1 == n)).map
          (fun p => if p.1 ∈ ns then (p.1, { p.2 with next_review := v }) else p) :=
  find?_map_keyfix l n _ (fun p => by by_cases hp : p.1 ∈ ns <;> simp [hp])

/-- Claim C4: the due-selector output is exactly the set of due topics
(restricted to the requested subject), sorted ascending by `next_review`.
With at most `cap` due topics everything is returned and the store is left
alone; with more than `cap` due topics exactly the first `cap` names are
returned, each of the remaining `length - cap` due topics has its
`next_review` rewritten to `today + 1`, and every other name resolves
exactly as before. -/
theorem C4_due_selector (st : Store) (subj : Option String) (today : ℤ)
    (cap : ℕ) :
    List.Sorted byNextReview (dueSorted st subj today) ∧
    (dueSorted st subj today).Perm (st.topics.filter (isDue today subj)) ∧
    ((dueSorted st subj today).length ≤ cap →
      get_topics_to_review st subj today cap
        = ((dueSorted st subj today).map Prod.fst, st)) ∧
    (cap < (dueSorted st subj today).length →
      (get_topics_to_review st subj today cap).1
          = ((dueSorted st subj today).map Prod.fst).take cap ∧
      (get_topics_to_review st subj today cap).1.length = cap ∧
      (((dueSorted st subj today).map Prod.fst).drop cap).length
          = (dueSorted st subj today).length - cap ∧
      (∀ n ∈ ((dueSorted st subj today).map Prod.fst).drop cap,
        (findTopic (get_topics_to_review st subj today cap).2 n).map
            Topic.next_review = some (today + 1)) ∧
      (∀ n, n ∉ ((dueSorted st subj today).map Prod.fst).drop cap →
        findTopic (get_topics_to_review st subj today cap).2 n
          = findTopic st n)) := by
  have hperm : (dueSorted st subj today).Perm (st.topics.filter (isDue today subj)) :=
    List.perm_insertionSort byNextReview _
  refine ⟨List.sorted_insertionSort byNextReview _, hperm, ?_, ?_⟩
  · intro hle
    simp only [get_topics_to_review]
    rw [if_neg (by simp only [List.length_map]; omega)]
  · intro hlt
    have hlt' : cap < ((dueSorted st subj today).map Prod.fst).length := by
      simpa using hlt
    refine ⟨?_, ?_, ?_, ?_, ?_⟩
    · simp only [get_topics_to_review]
      rw [if_pos hlt']
    · simp only [get_topics_to_review]
      rw [if_pos hlt']
      simpa [List.length_take] using min_eq_left (le_of_lt hlt')
    · simp [List.length_drop]
    · intro n hn
      have hinst : n ∈ st.topics.map Prod.fst := by
        have h1 : n ∈ (dueSorted st subj today).map Prod.fst :=
          List.drop_subset _ _ hn
        obtain ⟨p, hp, hpn⟩ := List.mem_map.mp h1
        have hpf : p ∈ st.topics.filter (isDue today subj) := hperm.mem_iff.mp hp
        exact List.mem_map.mpr ⟨p, (List.mem_filter.mp hpf).1, hpn⟩
      have hsome : (st.topics.find? (fun p => p.1 == n)).isSome := by
        obtain ⟨p, hp, hpn⟩ := List.mem_map.mp hinst
        exact List.find?_isSome.mpr ⟨p, hp, by simp [hpn]⟩
      obtain ⟨q, hfind⟩ := Option.isSome_iff_exists.mp hsome
      have hq1 : q.1 = n := by simpa using List.find?_some hfind
      simp only [get_topics_to_review]
      rw [if_pos hlt']
      unfold findTopic
      rw [find?_reschedule, hfind]
      simp [hq1, hn]
    · intro n hn
      simp only [get_topics_to_review]
      rw [if_pos hlt']
      unfold findTopic
      rw [find?_reschedule]
      cases hfind : st.topics.find? (fun p => p.1 == n) with
      | none => simp
      | some q =>
        have hq1 : q.1 = n := by simpa using List.find?_some hfind
        simp [hq1, hn]

/-- A store with five due topics (on day 0) and one that is not yet due. -/
def overflowStore : Store :=
  { topics :=
      [("t1", { tdA with next_review := -2 }),
       ("t2", { tdA with next_review := -1 }),
       ("t3", { tdA with next_review := 0 }),
       ("t4", { tdA with next_review := 0 }),
       ("t5", { tdA with next_review := 0 }),
       ("t6", { tdA with next_review := 9 })],
    total_reviews := 0, streak := streakA }

/-- Claim C4, witness: with the daily cap 3 and five topics due, exactly 3
names are returned and exactly 5 - 3 = 2 topics are rescheduled. -/
theorem C4_witness :
    (dueSorted overflowStore none 0).length = 5 ∧
    (get_topics_to_review overflowStore none 0 3).1.length = 3 ∧
    (((dueSorted overflowStore none 0).map Prod.fst).drop 3).length
        = (dueSorted overflowStore none 0).length - 3 :=
  ⟨by decide,
   ((C4_due_selector overflowStore none 0 3).2.2.2 (by decide)).2.1,
   ((C4_due_selector overflowStore none 0 3).2.2.2 (by decide)).2.2.1⟩

/-- Claim C5: for validated integer ratings in `[1,5]` the review score
`((6 - difficulty) + confidence) / 2` lies in `[1,5]`, and the review adds
exactly `score / 5` to the topic's level, a strict increase. -/
theorem C5_score_and_level (st : Store) (t : String) (td : Topic)
    (d c now : ℤ) (ht : t ≠ "") (h : findTopic st t = some td)
    (hd1 : 1 ≤ d) (hd5 : d ≤ 5) (hc1 : 1 ≤ c) (hc5 : c ≤ 5) :
    (1 ≤ review_score d c ∧ review_score d c ≤ 5) ∧
    ∃ td', findTopic (review_topic st t d c now).1 t = some td' ∧
      td'.level = td.level + review_score d c / 5 ∧ td.level < td'.level := by
  have hdq5 : (d : ℚ) ≤ 5 := by exact_mod_cast hd5
  have hdq1 : (1 : ℚ) ≤ (d : ℚ) := by exact_mod_cast hd1
  have hcq5 : (c : ℚ) ≤ 5 := by exact_mod_cast hc5
  have hcq1 : (1 : ℚ) ≤ (c : ℚ) := by exact_mod_cast hc1
  have hs1 : (1 : ℚ) ≤ review_score d c := by unfold review_score; linarith
  have hs5 : review_score d c ≤ 5 := by unfold review_score; linarith
  refine ⟨⟨hs1, hs5⟩, do_review td d c now,
    findTopic_review_topic st t td d c now ht h, do_review_level td d c now, ?_⟩
  rw [do_review_level]
  linarith

/-- Claim C5, witness at ratings difficulty 4, confidence 2. -/
theorem C5_witness :
    (1 ≤ review_score 4 2 ∧ review_score 4 2 ≤ 5) ∧
    ∃ td', findTopic (review_topic sampleStore "algebra" 4 2 0).1 "algebra" = some td' ∧
      td'.level = tdA.level + review_score 4 2 / 5 ∧ tdA.level < td'.level :=
  C5_score_and_level sampleStore "algebra" tdA 4 2 0 (by decide) (by decide)
    (by decide) (by decide) (by decide) (by decide)

/-- With a validated difficulty rating (at most 5) and confidence rating (at
least 1) every factor of the raw interval is nonnegative, so the truncated
interval is nonnegative as well. -/
theorem next_interval_nonneg (level : ℚ) (d c days : ℤ)
    (hd5 : d ≤ 5) (hc1 : 1 ≤ c) : 0 ≤ next_interval level d c days := by
  have hb : (0 : ℝ) < base_interval level := Real.rpow_pos_of_pos (by norm_num) _
  have hdf : (0 : ℚ) ≤ difficulty_factor d := by
    have hq : (d : ℚ) ≤ 5 := by exact_mod_cast hd5
    unfold difficulty_factor
    linarith
  have hcf : (0 : ℚ) ≤ confidence_factor c := by
    have hq : (1 : ℚ) ≤ (c : ℚ) := by exact_mod_cast hc1
    unfold confidence_factor
    linarith
  have herb : (0 : ℚ) ≤ early_review_bonus days := by
    have hf : (0 : ℚ) ≤ early_review_factor days := le_max_left 0 _
    unfold early_review_bonus
    linarith
  have hprod : (0 : ℝ) ≤ base_interval level * ((difficulty_factor d : ℚ) : ℝ) *
      ((confidence_factor c : ℚ) : ℝ) * ((early_review_bonus days : ℚ) : ℝ) := by
    have h1 : (0 : ℝ) ≤ ((difficulty_factor d : ℚ) : ℝ) := by exact_mod_cast hdf
    have h2 : (0 : ℝ) ≤ ((confidence_factor c : ℚ) : ℝ) := by exact_mod_cast hcf
    have h3 : (0 : ℝ) ≤ ((early_review_bonus days : ℚ) : ℝ) := by exact_mod_cast herb
    exact mul_nonneg (mul_nonneg (mul_nonneg hb.le h1) h2) h3
  unfold next_interval pyInt
  rw [if_pos hprod]
  exact Int.floor_nonneg.mpr hprod

theorem curve_nonneg (i n : ℤ) (h : 0 ≤ i) :
    0 ≤ apply_spaced_repetition_curve i n := by
  unfold apply_spaced_repetition_curve
  by_cases h3 : n ≤ 3
  · rw [if_pos h3]; exact le_min h (by norm_num)
  by_cases h7 : n ≤ 7
  · rw [if_neg h3, if_pos h7]; exact le_min h (by norm_num)
  · rw [if_neg h3, if_neg h7]; exact le_min h (by norm_num)

/-- Claim C6: every write of a `next_review` field stores a date that is at
or after the date on which the write happens.  Topic creation stores
`today` itself; a successful review with validated ratings stores
`now + interval` with a nonnegative interval; overflow rescheduling either
leaves a record untouched or stores `today + 1`. -/
theorem C6_next_review_not_past :
    (∀ st : Store, ∀ topic subject : String, ∀ today : ℤ,
      topic ≠ "" → subject ≠ "" → findTopic st topic = none →
      (findTopic (add_topic st topic subject today) topic).map Topic.next_review
        = some today) ∧
    (∀ st : Store, ∀ t : String, ∀ td : Topic, ∀ d c now : ℤ,
      t ≠ "" → findTopic st t = some td → d ≤ 5 → 1 ≤ c →
      ∃ td', findTopic (review_topic st t d c now).1 t = some td' ∧
        now ≤ td'.next_review) ∧
    (∀ st : Store, ∀ subj : Option String, ∀ today : ℤ, ∀ cap : ℕ,
      ∀ p ∈ (get_topics_to_review st subj today cap).2.topics,
        p ∈ st.topics ∨ p.2.next_review = today + 1) := by
  refine ⟨?_, ?_, ?_⟩
  · intro st topic subject today ht hs h
    have hfind : st.topics.find? (fun p => p.1 == topic) = none :=
      Option.map_eq_none'.mp h
    unfold add_topic
    rw [if_neg (by simp [ht, hs]), if_pos h]
    unfold findTopic
    simp [List.find?_append, hfind]
  · intro st t td d c now ht h hd5 hc1
    refine ⟨do_review td d c now, findTopic_review_topic st t td d c now ht h, ?_⟩
    rw [do_review_next_review]
    have := curve_nonneg
      (next_interval (td.level + review_score d c / 5) d c (now - td.next_review))
      (td.reviews + 1)
      (next_interval_nonneg (td.level + review_score d c / 5) d c
        (now - td.next_review) hd5 hc1)
    linarith
  · intro st subj today cap p hp
    unfold get_topics_to_review at hp
    by_cases hlen : cap < ((dueSorted st subj today).map Prod.fst).length
    · rw [if_pos hlen] at hp
      simp only [List.mem_map] at hp
      obtain ⟨q, hq, hfq⟩ := hp
      by_cases hmem : q.1 ∈ ((dueSorted st subj today).map Prod.fst).drop cap
      · right
        rw [← hfq]
        simp [hmem]
      · left
        rw [← hfq]
        simpa [hmem] using hq
    · rw [if_neg hlen] at hp
      exact Or.inl hp

/-- Claim C6, witness: creation on day 0 stores day 0; a concrete review on
day 0 stores a date at or after day 0; the due-selector run on the sample
store keeps its only record intact. -/
theorem C6_witness :
    (findTopic (add_topic emptyStore "algebra" "math" 0) "algebra").map
        Topic.next_review = some 0 ∧
    (∃ td', findTopic (review_topic sampleStore "algebra" 3 3 0).1 "algebra"
        = some td' ∧ (0 : ℤ) ≤ td'.next_review) ∧
    (("algebra", tdA) ∈ sampleStore.topics ∨ tdA.next_review = 0 + 1) :=
  ⟨C6_next_review_not_past.1 emptyStore "algebra" "math" 0 (by decide) (by decide)
      (by decide),
   C6_next_review_not_past.2.1 sampleStore "algebra" tdA 3 3 0 (by decide)
      (by decide) (by decide) (by decide),
   C6_next_review_not_past.2.2 sampleStore none 0 3 ("algebra", tdA) (by decide)⟩

/-- Claim C7: when the updated track's last event date equals yesterday the
streak counter increments by exactly 1 and `longest` becomes
`max(current, longest)` for the incremented counter; and no streak update
ever decreases `longest`. -/
theorem C7_streak (s : Streak) (homework : Bool) (today : ℤ) :
    ((if homework then s.last_homework else s.last_review) = some (today - 1) →
      (update_streak s homework today).current = s.current + 1 ∧
      (update_streak s homework today).longest = max (s.current + 1) s.longest) ∧
    s.longest ≤ (update_streak s homework today).longest := by
  constructor
  · intro h
    have hc : s.last_review = some (today - 1) ∨
        (homework = true ∧ s.last_homework = some (today - 1)) := by
      cases homework
      · exact Or.inl (by simpa using h)
      · exact Or.inr ⟨rfl, by simpa using h⟩
    simp only [update_streak, if_pos hc]
    cases homework <;> simp
  · by_cases hc : s.last_review = some (today - 1) ∨
        (homework = true ∧ s.last_homework = some (today - 1))
    · simp only [update_streak, if_pos hc]
      cases homework <;> simp [le_max_right]
    · simp only [update_streak, if_neg hc]
      by_cases hr : s.last_review ≠ some today ∧
          (homework = false ∨ s.last_homework ≠ some today)
      · simp only [if_pos hr]
        cases homework <;> simp
      · simp only [if_neg hr]
        cases homework <;> simp

/-- Claim C7, witness: a review on day 0 with `last_review` equal to day -1
extends the streak from 1 to 2 and lifts `longest` to 2. -/
theorem C7_witness :
    ((update_streak streakA false 0).current = streakA.current + 1 ∧
      (update_streak streakA false 0).longest = max (streakA.current + 1) streakA.longest) ∧
    streakA.longest ≤ (update_streak streakA false 0).longest :=
  ⟨(C7_streak streakA false 0).1 (by decide), (C7_streak streakA false 0).2⟩

/-- Claim C8: reviewing a topic name that is not in the store performs no
mutation at all — the whole store (topic map, `total_reviews`, streak) is
returned unchanged — and the failure is surfaced as the `false` flag. -/
theorem C8_unknown_topic (st : Store) (t : String) (d c now : ℤ)
    (h : findTopic st t = none) :
    review_topic st t d c now = (st, false) := by
  unfold review_topic
  by_cases ht : t = ""
  · rw [if_pos ht]
  · rw [if_neg ht, h]

/-- Claim C8, witness: reviewing the absent topic `"calculus"` leaves the
sample store untouched and reports failure. -/
theorem C8_witness :
    review_topic sampleStore "calculus" 3 3 0 = (sampleStore, false) :=
  C8_unknown_topic sampleStore "calculus" 3 3 0 (by decide)

/-- Claim C9: one smoothing step `cur + 0.2 * (new - cur)` keeps the stored
difficulty inside `[1,5]` when the current value and the new rating are. -/
theorem C9_difficulty_bounds (cur : ℚ) (nd : ℤ)
    (h1 : 1 ≤ cur) (h5 : cur ≤ 5) (hn1 : 1 ≤ nd) (hn5 : nd ≤ 5) :
    1 ≤ update_topic_difficulty cur nd ∧ update_topic_difficulty cur nd ≤ 5 := by
  have hq1 : (1 : ℚ) ≤ (nd : ℚ) := by exact_mod_cast hn1
  have hq5 : (nd : ℚ) ≤ 5 := by exact_mod_cast hn5
  unfold update_topic_difficulty
  constructor <;> linarith

/-- Claim C9, witness at stored difficulty 3 and new rating 5. -/
theorem C9_witness :
    1 ≤ update_topic_difficulty 3 5 ∧ update_topic_difficulty 3 5 ≤ 5 :=
  C9_difficulty_bounds 3 5 (by norm_num) (by norm_num) (by norm_num) (by norm_num)

/-- Claim C10: `add_topic` with a name that already exists changes nothing:
the existing record keeps every field and no other part of the store is
touched. -/
theorem C10_add_existing (st : Store) (topic subject : String) (today : ℤ)
    (td : Topic) (h : findTopic st topic = some td) :
    add_topic st topic subject today = st := by
  unfold add_topic
  by_cases he : topic = "" ∨ subject = ""
  · rw [if_pos he]
  · rw [if_neg he, if_neg (by simp [h])]

/-- Claim C10, witness: re-adding `"algebra"` (even under another subject)
returns the sample store unchanged. -/
theorem C10_witness :
    add_topic sampleStore "algebra" "science" 5 = sampleStore :=
  C10_add_existing sampleStore "algebra" "science" 5 tdA (by decide)

end ASRS
